import Mathlib

/-!
Shallow embedding of the anomaly-detection engine of the loyverse-daily-sync
repository (src/main.py), together with theorems checking the natural-language
specification against it.

Conventions of the embedding:
* pandas DataFrames become Lean lists of structures; monetary amounts and item
  quantities become exact rationals;
* timestamps become integers (seconds); the clock value read by
  pd.Timestamp.now inside the analysis functions becomes an explicit `now`
  parameter, so that the window split is a function of its inputs;
* the pandas sample standard deviation (ddof = 1, NaN filled with 0) is carried
  as its square, the sample variance `sampleVar`, which is rational; the
  comparison against mean - 1.8 * std is encoded by an equivalent rational
  comparison (see `is_stat_anomaly` and the bridge theorem for claim C3);
* nothing in the analysis path of main.py can raise, so the engine entry point
  `runEngine` returns an `Except` that is always `ok`.
-/

/-! ## Global configuration (main.py lines 11-12) -/

def BASELINE_DAYS : Nat := 90

def ANALYSIS_DAYS : Nat := 7

/-- Start of the recent analysis window (main.py line 76 / line 137):
pd.Timestamp.now(tz) - pd.Timedelta(days=ANALYSIS_DAYS), with `now` made an
explicit parameter and timestamps measured in seconds. -/
def analysisPeriodStart (now : Int) : Int := now - (ANALYSIS_DAYS : Int) * 86400

/-! ## Cohort classifier (main.py lines 57-66) -/

/-- Embedding of the day_map dictionary on main.py line 57: BigQuery
EXTRACT(DAYOFWEEK) yields 1 = Sunday .. 7 = Saturday. -/
def day_map (d : Nat) : Option String :=
  match d with
  | 1 => some "Sun"
  | 2 => some "Mon"
  | 3 => some "Tue"
  | 4 => some "Wed"
  | 5 => some "Thu"
  | 6 => some "Fri"
  | 7 => some "Sat"
  | _ => none

/-- Embedding of categorize_shift (main.py lines 59-62, repeated at lines
118-121): AM for local hour 4..11, PM for 16..23, otherwise the sentinel
bucket "Other". -/
def categorize_shift (hour : Nat) : String :=
  if 4 ≤ hour ∧ hour ≤ 11 then "AM"
  else if 16 ≤ hour ∧ hour ≤ 23 then "PM"
  else "Other"

/-- One row of the BigQuery result consumed by get_processed_shift_data
(main.py lines 41-53): day_of_week and hour_of_day are extracted in the
Asia/Manila time zone by the query itself.  The store_id → store_name map of
line 56 is applied upstream, so the row carries the mapped store_name. -/
structure RawShiftRow where
  store_name : String
  day_of_week : Nat
  hour_of_day : Nat
  shift_opening_time : Int
  total_sales : ℚ
deriving DecidableEq

/-- The shift_slot column (main.py line 64): day_name + "-" + time_slot. -/
def raw_shift_slot (d hour : Nat) : String :=
  (day_map d).getD "" ++ "-" ++ categorize_shift hour

/-- One processed shift row, the shape flowing into the analysis functions. -/
structure ShiftRow where
  store_name : String
  shift_slot : String
  shift_opening_time : Int
  total_sales : ℚ
deriving DecidableEq

/-- Column assembly of main.py lines 56-65 for a single row. -/
def toShiftRow (r : RawShiftRow) : ShiftRow :=
  ⟨r.store_name, raw_shift_slot r.day_of_week r.hour_of_day,
    r.shift_opening_time, r.total_sales⟩

/-- Embedding of get_processed_shift_data (main.py lines 38-66): classify every
row, then drop the rows whose time_slot is "Other" (line 66). -/
def get_processed_shift_data (rows : List RawShiftRow) : List ShiftRow :=
  (rows.filter (fun r => decide (categorize_shift r.hour_of_day ≠ "Other"))).map toShiftRow

/-- The fourteen cohort keys of the specification, {Mon..Sun} × {AM, PM}. -/
def cohortKeys : List String :=
  ["Sun-AM", "Sun-PM", "Mon-AM", "Mon-PM", "Tue-AM", "Tue-PM", "Wed-AM",
   "Wed-PM", "Thu-AM", "Thu-PM", "Fri-AM", "Fri-PM", "Sat-AM", "Sat-PM"]

/-! ## Baseline estimator (main.py lines 71-73 and 127-133) -/

/-- Arithmetic mean, the semantics of the pandas mean aggregation. -/
def meanOf (l : List ℚ) : ℚ := l.sum / l.length

/-- Square of the pandas std aggregation with the NaN → 0 fill of main.py
line 73 / line 133: the sample variance with n-1 denominator, and 0 when the
group has 0 or 1 members (pandas yields NaN there, immediately filled with 0;
the std column itself is the square root of this value). -/
def sampleVar (l : List ℚ) : ℚ :=
  if l.length ≤ 1 then 0
  else (l.map (fun x => (x - meanOf l) ^ 2)).sum / ((l.length : ℚ) - 1)

/-- Per-(store_name, shift_slot) baseline carried through the merge; var is
the square of the std_sales column. -/
structure Baseline where
  avg : ℚ
  var : ℚ
deriving DecidableEq

/-- Group keys produced by the groupby on main.py line 71: the distinct
(store_name, shift_slot) pairs occurring in the data. -/
def groupKeys (rows : List ShiftRow) : List (String × String) :=
  ((rows.map (fun r => (r.store_name, r.shift_slot)))).dedup

/-- The total_sales values of the group of rows sharing a key. -/
def valsFor (rows : List ShiftRow) (k : String × String) : List ℚ :=
  (rows.filter (fun r => decide ((r.store_name, r.shift_slot) = k))).map ShiftRow.total_sales

/-- Embedding of the baselines frame (main.py lines 71-73): one row per group
key, holding the mean and (squared) std of that group's total_sales. -/
def baselines (rows : List ShiftRow) : List ((String × String) × Baseline) :=
  (groupKeys rows).map (fun k => (k, ⟨meanOf (valsFor rows k), sampleVar (valsFor rows k)⟩))

/-- The per-row effect of the left merge on main.py line 74: look the row's key
up in the baselines frame.  For keys built from the same row set the lookup
always succeeds; the `none` branch is the unreachable left-join miss. -/
def lookupBaseline (bs : List ((String × String) × Baseline)) (k : String × String) : Baseline :=
  match bs.find? (fun p => decide (p.1 = k)) with
  | some p => p.2
  | none => ⟨0, 0⟩

/-! ## Anomaly classifier (main.py lines 79-82) -/

/-- Embedding of the is_stat_anomaly column (main.py lines 79-80):
total_sales < avg_sales - 1.8 * std_sales, and std_sales > 0, where
std_sales = sqrt vr.  The comparison is encoded over the rationals by squaring:
for vr ≥ 0 the condition holds exactly when avg - v is positive, with
(1.8)^2 * vr < (avg - v)^2, and vr > 0; the equivalence with the real-number
reading is the content of the theorem for claim C3. -/
def is_stat_anomaly (v avg vr : ℚ) : Bool :=
  (decide (0 < avg - v) && decide (((9 : ℚ) / 5) ^ 2 * vr < (avg - v) ^ 2)) && decide (0 < vr)

/-- Embedding of the is_hard_rule_anomaly column (main.py line 81):
total_sales < avg_sales * 0.6, independent of the variance. -/
def is_hard_rule_anomaly (v avg : ℚ) : Bool :=
  decide (v < avg * ((3 : ℚ) / 5))

/-- Embedding of the is_suspicious column (main.py line 82): the OR of the
statistical and hard-rule flags. -/
def is_suspicious (v avg vr : ℚ) : Bool :=
  is_stat_anomaly v avg vr || is_hard_rule_anomaly v avg

/-! ## Sales-dip pipeline (main.py lines 68-87) -/

/-- One row of the recent_shifts_df frame after the flag columns are added. -/
structure AnalysisRow where
  row : ShiftRow
  avg_sales : ℚ
  var_sales : ℚ
  stat_flag : Bool
  hard_flag : Bool
  suspicious : Bool
deriving DecidableEq

/-- Insertion step of the stable-enough embedding of sort_values. -/
def insertLE {α : Type} (le : α → α → Bool) (a : α) : List α → List α
  | [] => [a]
  | b :: l => if le a b then a :: b :: l else b :: insertLE le a l

/-- Insertion sort, embedding the sort_values call on main.py line 85. -/
def sortLE {α : Type} (le : α → α → Bool) : List α → List α
  | [] => []
  | a :: l => insertLE le a (sortLE le l)

/-- Sort key of main.py line 85: by store_name, then shift_opening_time. -/
def anomalyLE (a b : AnalysisRow) : Bool :=
  decide (a.row.store_name < b.row.store_name) ||
    (decide (a.row.store_name = b.row.store_name) &&
      decide (a.row.shift_opening_time ≤ b.row.shift_opening_time))

/-- Embedding of generate_sales_dip_anomalies (main.py lines 68-87): compute
baselines over ALL input rows (line 71), left-merge them onto the rows
(line 74), keep only the rows of the recent analysis window (lines 76-77),
compute the three flag columns (lines 79-82), keep the suspicious rows
(line 84) and sort them (line 85). -/
def generate_sales_dip_anomalies (rows : List ShiftRow) (now : Int) : List AnalysisRow :=
  let bs := baselines rows
  let merged := rows.map (fun r => (r, lookupBaseline bs (r.store_name, r.shift_slot)))
  let recent := merged.filter (fun p => decide (analysisPeriodStart now ≤ p.1.shift_opening_time))
  let flagged := recent.map (fun p =>
    ⟨p.1, p.2.avg, p.2.var,
      is_stat_anomaly p.1.total_sales p.2.avg p.2.var,
      is_hard_rule_anomaly p.1.total_sales p.2.avg,
      is_suspicious p.1.total_sales p.2.avg p.2.var⟩)
  sortLE anomalyLE (flagged.filter AnalysisRow.suspicious)

/-- The historical side of the window split as written in main.py line 171
and line 186: rows opened strictly before the analysis period start. -/
def historicalRows (rows : List ShiftRow) (now : Int) : List ShiftRow :=
  rows.filter (fun r => decide (r.shift_opening_time < analysisPeriodStart now))

/-- The recent side of the window split (main.py lines 77, 172, 187). -/
def recentRows (rows : List ShiftRow) (now : Int) : List ShiftRow :=
  rows.filter (fun r => decide (analysisPeriodStart now ≤ r.shift_opening_time))

/-- The engine entry point with an explicit error channel.  The analysis path
of main.py (lines 68-87) contains no validation and no raise statement, and
none of its arithmetic can throw, so the embedding always returns ok. -/
def runEngine (rows : List ShiftRow) (now : Int) : Except String (List AnalysisRow) :=
  Except.ok (generate_sales_dip_anomalies rows now)

/-! ## Ratio analyzer (main.py lines 89-165) -/

/-- One row of the pivoted frame of main.py lines 111-124: per-shift summed
quantities of the two tracked products, already cohort-tagged. -/
structure RatioRow where
  store_name : String
  shift_slot : String
  shift_opening_time : Int
  americano : ℚ
  spanish_latte : ℚ
deriving DecidableEq

/-- Embedding of the americano_vs_spanish_latte_pct column (main.py lines
141-142): np.where gives Americano / SpanishLatte when the latte count is
positive, NaN otherwise; the loc assignment then overwrites the rows with
latte count 0 and americano count > 0 with the sentinel 9.99.  NaN is modelled
as none. -/
def americano_vs_spanish_latte_pct (am sl : ℚ) : Option ℚ :=
  if 0 < sl then some (am / sl)
  else if sl = 0 ∧ 0 < am then some ((999 : ℚ) / 100)
  else none

/-- Embedding of the is_ratio_anomaly column (main.py line 143): pct > 0.6,
with the NaN > 0.6 comparison evaluating to False. -/
def is_ratio_anomaly (am sl : ℚ) : Bool :=
  match americano_vs_spanish_latte_pct am sl with
  | some p => decide ((3 : ℚ) / 5 < p)
  | none => false

/-- Spanish Latte quantities of the group of rows sharing a key, feeding the
baselines of main.py lines 127-133. -/
def latteValsFor (rows : List RatioRow) (k : String × String) : List ℚ :=
  (rows.filter (fun r => decide ((r.store_name, r.shift_slot) = k))).map RatioRow.spanish_latte

/-- One row of the ratio analyzer's output frame. -/
structure RatioVerdict where
  row : RatioRow
  pct : Option ℚ
  ratio_flag : Bool
  latte_dip_flag : Bool
  reason : String
deriving DecidableEq

/-- Embedding of get_reason (main.py lines 152-158). -/
def get_reason (rf lf : Bool) : String :=
  String.intercalate ", "
    ((if rf then ["High Americano Ratio"] else []) ++
      (if lf then ["Low Spanish Latte Sales"] else []))

/-- Sort key of main.py line 163. -/
def ratioLE (a b : RatioVerdict) : Bool :=
  decide (a.row.store_name < b.row.store_name) ||
    (decide (a.row.store_name = b.row.store_name) &&
      decide (a.row.shift_opening_time ≤ b.row.shift_opening_time))

/-- Embedding of generate_ratio_anomalies (main.py lines 89-165) from the
pivoted frame on: Spanish Latte baselines over ALL rows (lines 127-135),
recent-window filter (lines 137-138), the ratio flag (lines 141-143), the
latte-dip flag (lines 146-147, the same statistical rule applied to the
Spanish Latte count), then filter, reason tagging and sort (lines 150-163). -/
def generate_ratio_anomalies (rows : List RatioRow) (now : Int) : List RatioVerdict :=
  let recent := rows.filter (fun r => decide (analysisPeriodStart now ≤ r.shift_opening_time))
  let flagged := recent.map (fun r =>
    let avg := meanOf (latteValsFor rows (r.store_name, r.shift_slot))
    let vr := sampleVar (latteValsFor rows (r.store_name, r.shift_slot))
    let rf := is_ratio_anomaly r.americano r.spanish_latte
    let lf := is_stat_anomaly r.spanish_latte avg vr
    ⟨r, americano_vs_spanish_latte_pct r.americano r.spanish_latte, rf, lf, get_reason rf lf⟩)
  sortLE ratioLE (flagged.filter (fun v => v.ratio_flag || v.latte_dip_flag))

/-! ## Run detector

Modelled from the spec: no run-detection code exists anywhere under src/ —
main.py stops at per-shift flags — so the Run Detector of spec section 4.4 is
embedded from the specification's own words: partition the ordered flag
sequence into maximal blocks of constant value, and mark every member of a
true block whose length is at least min_run_length. -/

/-- Length of the longest prefix of the list all of whose elements equal b. -/
def leadRun (b : Bool) : List Bool → Nat
  | [] => 0
  | c :: rest => if c = b then leadRun b rest + 1 else 0

/-- Modelled from the spec: the Run Detector contract of spec section 4.4
(find_runs), absent from src/.  A left-to-right scan over the per-shift
is_anomalous flags of one store, ordered by opened_at: each step takes the
maximal leading block of constant value (length leadRun b rest + 1), emits
in_alert_run = (value AND block length ≥ m) for each member, and recurses on
the remainder. -/
def find_runs (m : Nat) : List Bool → List Bool
  | [] => []
  | b :: rest =>
    List.replicate (leadRun b rest + 1) (b && decide (m ≤ leadRun b rest + 1)) ++
      find_runs m (rest.drop (leadRun b rest))
termination_by l => l.length
decreasing_by
  simp only [List.length_drop, List.length_cons]
  omega

/-- A maximal run of true flags: positions j..k all hold true, the position
before j (if any) holds false, and the position after k (if any) holds
false. -/
def IsMaxRun (flags : List Bool) (j k : Nat) : Prop :=
  j ≤ k ∧ k < flags.length ∧
    (∀ t, t ≤ k → j ≤ t → flags.getD t false = true) ∧
    (j = 0 ∨ flags.getD (j - 1) false = false) ∧
    (k + 1 = flags.length ∨ flags.getD (k + 1) false = false)

instance (flags : List Bool) (j k : Nat) : Decidable (IsMaxRun flags j k) := by
  unfold IsMaxRun
  infer_instance

/-! ## Helper lemmas -/

theorem getD_replicate_of_lt {α : Type} (n : Nat) (a d : α) (i : Nat) (h : i < n) :
    (List.replicate n a).getD i d = a := by
  induction n generalizing i with
  | zero => omega
  | succ n ih =>
    cases i with
    | zero => rfl
    | succ i => exact ih i (by omega)

theorem getD_drop_eq {α : Type} (l : List α) (i t : Nat) (d : α) :
    (l.drop i).getD t d = l.getD (i + t) d := by
  induction i generalizing l with
  | zero => simp
  | succ i ih =>
    cases l with
    | nil => simp
    | cons a l =>
      rw [List.drop_succ_cons, ih, Nat.succ_add]
      rfl

theorem leadRun_le (b : Bool) (l : List Bool) : leadRun b l ≤ l.length := by
  induction l with
  | nil => simp [leadRun]
  | cons c rest ih =>
    simp only [leadRun, List.length_cons]
    split
    · omega
    · omega

theorem getD_of_lt_leadRun (b : Bool) (l : List Bool) (t : Nat) (h : t < leadRun b l) :
    l.getD t false = b := by
  induction l generalizing t with
  | nil => simp [leadRun] at h
  | cons c rest ih =>
    simp only [leadRun] at h
    by_cases hc : c = b
    · rw [if_pos hc] at h
      cases t with
      | zero => simpa using hc
      | succ t => exact ih t (by omega)
    · rw [if_neg hc] at h
      omega

theorem getD_at_leadRun (b : Bool) (l : List Bool) (h : leadRun b l < l.length) :
    l.getD (leadRun b l) false = !b := by
  induction l with
  | nil => simp at h
  | cons c rest ih =>
    by_cases hc : c = b
    · simp only [leadRun, if_pos hc] at h ⊢
      simpa using ih (by simpa using h)
    · simp only [leadRun, if_neg hc]
      cases b <;> cases c <;> simp_all

theorem find_runs_nil (m : Nat) : find_runs m [] = [] := by
  rw [find_runs]

theorem find_runs_cons (m : Nat) (b : Bool) (rest : List Bool) :
    find_runs m (b :: rest) =
      List.replicate (leadRun b rest + 1) (b && decide (m ≤ leadRun b rest + 1)) ++
        find_runs m (rest.drop (leadRun b rest)) := by
  rw [find_runs]

theorem find_runs_length (m : Nat) (l : List Bool) : (find_runs m l).length = l.length := by
  match l with
  | [] => rw [find_runs_nil]
  | b :: rest =>
    have hle := leadRun_le b rest
    have ih := find_runs_length m (rest.drop (leadRun b rest))
    rw [find_runs_cons]
    simp only [List.length_append, List.length_replicate, ih, List.length_drop,
      List.length_cons]
    omega
termination_by l.length
decreasing_by
  simp only [List.length_drop, List.length_cons]
  omega

theorem leadRun_block (b : Bool) (rest : List Bool) :
    ∀ t, t < leadRun b rest + 1 → (b :: rest).getD t false = b := by
  intro t ht
  cases t with
  | zero => rfl
  | succ t => simpa using getD_of_lt_leadRun b rest t (by omega)

theorem leadRun_next (b : Bool) (rest : List Bool)
    (h : leadRun b rest + 1 < (b :: rest).length) :
    (b :: rest).getD (leadRun b rest + 1) false = !b := by
  have hlen : (b :: rest).length = rest.length + 1 := rfl
  simpa using getD_at_leadRun b rest (by omega)

theorem maxRun_head (b : Bool) (rest : List Bool) (m i : Nat)
    (hcase : i < leadRun b rest + 1) :
    ((b = true ∧ m ≤ leadRun b rest + 1) ↔
      ∃ j k, IsMaxRun (b :: rest) j k ∧ m ≤ k + 1 - j ∧ j ≤ i ∧ i ≤ k) := by
  have hle : leadRun b rest ≤ rest.length := leadRun_le b rest
  have hlen : (b :: rest).length = rest.length + 1 := rfl
  have hblock := leadRun_block b rest
  constructor
  · rintro ⟨hb, hm⟩
    have hjk : 0 ≤ leadRun b rest := by omega
    have hklt : leadRun b rest < (b :: rest).length := by omega
    have hmem : ∀ t, t ≤ leadRun b rest → 0 ≤ t → (b :: rest).getD t false = true := by
      intro t ht _
      rw [hblock t (by omega), hb]
    have hright : leadRun b rest + 1 = (b :: rest).length ∨
        (b :: rest).getD (leadRun b rest + 1) false = false := by
      by_cases hend : leadRun b rest + 1 = (b :: rest).length
      · exact Or.inl hend
      · refine Or.inr ?_
        rw [leadRun_next b rest (by omega), hb]
        rfl
    have hm2 : m ≤ leadRun b rest + 1 - 0 := by omega
    have hji : 0 ≤ i := by omega
    have hik : i ≤ leadRun b rest := by omega
    exact ⟨0, leadRun b rest, ⟨hjk, hklt, hmem, Or.inl rfl, hright⟩, hm2, hji, hik⟩
  · rintro ⟨j, k, ⟨hjk, hklt, hmem, hleft, hright⟩, hm, hji, hik⟩
    have hb : b = true := by
      rw [← hblock i hcase]
      exact hmem i hik hji
    refine ⟨hb, ?_⟩
    have hj0 : j = 0 := by
      by_contra hj
      rcases hleft with h0 | hprev
      · exact hj h0
      · have : (b :: rest).getD (j - 1) false = b := hblock (j - 1) (by omega)
        rw [hprev, hb] at this
        simp at this
    have hkeq : k = leadRun b rest := by
      by_contra hk
      rcases Nat.lt_or_ge k (leadRun b rest) with hlt | hge
      · -- run ends before the block does: position k+1 is still inside the block
        rcases hright with hend | hnextfalse
        · omega
        · have : (b :: rest).getD (k + 1) false = b := hblock (k + 1) (by omega)
          rw [hnextfalse, hb] at this
          simp at this
      · -- run extends past the block: position leadRun+1 is true but must be !b
        have hlt2 : leadRun b rest + 1 ≤ k := by omega
        have htrue : (b :: rest).getD (leadRun b rest + 1) false = true :=
          hmem _ hlt2 (by omega)
        rw [leadRun_next b rest (by omega), hb] at htrue
        simp at htrue
    omega

theorem maxRun_shift (b : Bool) (rest : List Bool) (m i : Nat)
    (hi : i < (b :: rest).length) (hcase : leadRun b rest + 1 ≤ i) :
    ((∃ j k, IsMaxRun (rest.drop (leadRun b rest)) j k ∧ m ≤ k + 1 - j ∧
        j ≤ i - (leadRun b rest + 1) ∧ i - (leadRun b rest + 1) ≤ k) ↔
      ∃ j k, IsMaxRun (b :: rest) j k ∧ m ≤ k + 1 - j ∧ j ≤ i ∧ i ≤ k) := by
  have hle : leadRun b rest ≤ rest.length := leadRun_le b rest
  have hlen : (b :: rest).length = rest.length + 1 := rfl
  have hblock := leadRun_block b rest
  have hsufD : ∀ t, (rest.drop (leadRun b rest)).getD t false =
      (b :: rest).getD (leadRun b rest + 1 + t) false := by
    intro t
    rw [getD_drop_eq]
    have : leadRun b rest + 1 + t = (leadRun b rest + t) + 1 := by omega
    rw [this]
    rfl
  have hsuflen : (rest.drop (leadRun b rest)).length = rest.length - leadRun b rest := by
    simp only [List.length_drop]
  constructor
  · rintro ⟨j', k', ⟨hjk', hklt', hmem', hleft', hright'⟩, hm', hji', hik'⟩
    rw [hsuflen] at hklt'
    have hklt2 : k' + (leadRun b rest + 1) < (b :: rest).length := by omega
    have hjk2 : j' + (leadRun b rest + 1) ≤ k' + (leadRun b rest + 1) := by omega
    have hmem2 : ∀ t, t ≤ k' + (leadRun b rest + 1) → j' + (leadRun b rest + 1) ≤ t →
        (b :: rest).getD t false = true := by
      intro t ht hjt
      have heq : leadRun b rest + 1 + (t - (leadRun b rest + 1)) = t := by omega
      rw [← heq, ← hsufD]
      exact hmem' _ (by omega) (by omega)
    have hleft2 : j' + (leadRun b rest + 1) = 0 ∨
        (b :: rest).getD (j' + (leadRun b rest + 1) - 1) false = false := by
      by_cases hj0 : j' = 0
      · -- the suffix starts a run: its first element differs from b, so b = false
        refine Or.inr ?_
        have hfirst : (rest.drop (leadRun b rest)).getD 0 false = true := by
          apply hmem' 0 (by omega) (by omega)
        rw [hsufD 0] at hfirst
        have hnb : (b :: rest).getD (leadRun b rest + 1) false = !b :=
          leadRun_next b rest (by omega)
        have hb : b = false := by
          rw [hnb] at hfirst
          simpa using hfirst
        have heq : j' + (leadRun b rest + 1) - 1 = leadRun b rest := by omega
        rw [heq, hblock _ (by omega), hb]
      · rcases hleft' with h0 | hprev
        · exact absurd h0 hj0
        · refine Or.inr ?_
          have heq : leadRun b rest + 1 + (j' - 1) = j' + (leadRun b rest + 1) - 1 := by
            omega
          rw [← heq, ← hsufD]
          exact hprev
    have hright2 : k' + (leadRun b rest + 1) + 1 = (b :: rest).length ∨
        (b :: rest).getD (k' + (leadRun b rest + 1) + 1) false = false := by
      rcases hright' with hend | hnf
      · refine Or.inl ?_
        rw [hsuflen] at hend
        omega
      · refine Or.inr ?_
        have heq : leadRun b rest + 1 + (k' + 1) = k' + (leadRun b rest + 1) + 1 := by
          omega
        rw [← heq, ← hsufD]
        exact hnf
    have hm2 : m ≤ k' + (leadRun b rest + 1) + 1 - (j' + (leadRun b rest + 1)) := by omega
    have hji2 : j' + (leadRun b rest + 1) ≤ i := by omega
    have hik2 : i ≤ k' + (leadRun b rest + 1) := by omega
    exact ⟨j' + (leadRun b rest + 1), k' + (leadRun b rest + 1),
      ⟨hjk2, hklt2, hmem2, hleft2, hright2⟩, hm2, hji2, hik2⟩
  · rintro ⟨j, k, ⟨hjk, hklt, hmem, hleft, hright⟩, hm, hji, hik⟩
    have hjge : leadRun b rest + 1 ≤ j := by
      by_contra hj
      push_neg at hj
      have hb : b = true := by
        rw [← hblock j hj]
        exact hmem j (by omega) (by omega)
      have htrue : (b :: rest).getD (leadRun b rest + 1) false = true :=
        hmem _ (by omega) (by omega)
      rw [leadRun_next b rest (by omega), hb] at htrue
      simp at htrue
    have hjk2 : j - (leadRun b rest + 1) ≤ k - (leadRun b rest + 1) := by omega
    have hklt2 : k - (leadRun b rest + 1) < (rest.drop (leadRun b rest)).length := by
      rw [hsuflen]
      omega
    have hmem2 : ∀ t, t ≤ k - (leadRun b rest + 1) → j - (leadRun b rest + 1) ≤ t →
        (rest.drop (leadRun b rest)).getD t false = true := by
      intro t ht hjt
      rw [hsufD]
      exact hmem _ (by omega) (by omega)
    have hleft2 : j - (leadRun b rest + 1) = 0 ∨
        (rest.drop (leadRun b rest)).getD (j - (leadRun b rest + 1) - 1) false = false := by
      by_cases hj0 : j = leadRun b rest + 1
      · exact Or.inl (by omega)
      · refine Or.inr ?_
        rcases hleft with h0 | hprev
        · omega
        · rw [hsufD]
          have heq : leadRun b rest + 1 + (j - (leadRun b rest + 1) - 1) = j - 1 := by
            omega
          rw [heq]
          exact hprev
    have hright2 : k - (leadRun b rest + 1) + 1 = (rest.drop (leadRun b rest)).length ∨
        (rest.drop (leadRun b rest)).getD (k - (leadRun b rest + 1) + 1) false = false := by
      rcases hright with hend | hnf
      · refine Or.inl ?_
        rw [hsuflen]
        omega
      · refine Or.inr ?_
        rw [hsufD]
        have heq : leadRun b rest + 1 + (k - (leadRun b rest + 1) + 1) = k + 1 := by
          omega
        rw [heq]
        exact hnf
    have hm2 : m ≤ k - (leadRun b rest + 1) + 1 - (j - (leadRun b rest + 1)) := by omega
    have hji2 : j - (leadRun b rest + 1) ≤ i - (leadRun b rest + 1) := by omega
    have hik2 : i - (leadRun b rest + 1) ≤ k - (leadRun b rest + 1) := by omega
    exact ⟨j - (leadRun b rest + 1), k - (leadRun b rest + 1),
      ⟨hjk2, hklt2, hmem2, hleft2, hright2⟩, hm2, hji2, hik2⟩

theorem find_runs_spec (m : Nat) (flags : List Bool) : ∀ i, i < flags.length →
    ((find_runs m flags).getD i false = true ↔
      ∃ j k, IsMaxRun flags j k ∧ m ≤ k + 1 - j ∧ j ≤ i ∧ i ≤ k) := by
  match flags with
  | [] =>
    intro i hi
    simp at hi
  | b :: rest =>
    intro i hi
    have hle : leadRun b rest ≤ rest.length := leadRun_le b rest
    have hlen : (b :: rest).length = rest.length + 1 := rfl
    rw [find_runs_cons]
    by_cases hcase : i < leadRun b rest + 1
    · rw [List.getD_append _ _ _ _ (by simpa using hcase),
        getD_replicate_of_lt _ _ _ _ hcase]
      have hbool : (b && decide (m ≤ leadRun b rest + 1)) = true ↔
          (b = true ∧ m ≤ leadRun b rest + 1) := by
        simp
      exact hbool.trans (maxRun_head b rest m i hcase)
    · push_neg at hcase
      rw [List.getD_append_right _ _ _ _ (by simpa using hcase)]
      have hlen' : i - (leadRun b rest + 1) < (rest.drop (leadRun b rest)).length := by
        simp only [List.length_drop]
        omega
      have ih := find_runs_spec m (rest.drop (leadRun b rest)) (i - (leadRun b rest + 1)) hlen'
      simp only [List.length_replicate]
      exact ih.trans (maxRun_shift b rest m i hi hcase)
termination_by flags.length
decreasing_by
  simp only [List.length_drop, List.length_cons]
  omega

example : find_runs 3 [false, false, true, true, true, false, true, true] =
    [false, false, true, true, true, false, false, false] := by
  simp [find_runs_cons, find_runs_nil, leadRun]

theorem mem_insertLE {α : Type} (le : α → α → Bool) (x a : α) (l : List α) :
    x ∈ insertLE le a l ↔ x = a ∨ x ∈ l := by
  induction l with
  | nil => simp [insertLE]
  | cons b l ih =>
    simp only [insertLE]
    split
    · simp [or_comm, or_assoc, or_left_comm]
    · simp [ih]
      tauto

theorem mem_sortLE {α : Type} (le : α → α → Bool) (x : α) (l : List α) :
    x ∈ sortLE le l ↔ x ∈ l := by
  induction l with
  | nil => simp [sortLE]
  | cons a l ih =>
    simp only [sortLE, mem_insertLE, ih, List.mem_cons]

theorem find?_keyed_map {α β : Type} [DecidableEq α] (f : α → β) (ks : List α) (k : α)
    (hk : k ∈ ks) :
    (ks.map (fun x => (x, f x))).find? (fun p => decide (p.1 = k)) = some (k, f k) := by
  induction ks with
  | nil => simp at hk
  | cons a ks ih =>
    by_cases ha : a = k
    · subst ha
      simp [List.find?]
    · rcases List.mem_cons.mp hk with h | h
      · exact absurd h.symm ha
      · simp only [List.map_cons, List.find?, decide_eq_false ha]
        exact ih h

theorem mem_groupKeys (rows : List ShiftRow) (r : ShiftRow) (hr : r ∈ rows) :
    (r.store_name, r.shift_slot) ∈ groupKeys rows :=
  List.mem_dedup.mpr (List.mem_map_of_mem _ hr)

theorem lookupBaseline_eq (rows : List ShiftRow) (k : String × String)
    (hk : k ∈ groupKeys rows) :
    lookupBaseline (baselines rows) k =
      ⟨meanOf (valsFor rows k), sampleVar (valsFor rows k)⟩ := by
  have h := find?_keyed_map
    (fun k => (⟨meanOf (valsFor rows k), sampleVar (valsFor rows k)⟩ : Baseline))
    (groupKeys rows) k hk
  unfold lookupBaseline baselines
  rw [h]

theorem sampleVar_nonneg (l : List ℚ) : 0 ≤ sampleVar l := by
  unfold sampleVar
  split
  · exact le_refl 0
  · rename_i hlen
    apply div_nonneg
    · apply List.sum_nonneg
      intro x hx
      obtain ⟨y, _, rfl⟩ := List.mem_map.mp hx
      positivity
    · have h2 : 2 ≤ l.length := by omega
      have h2q : (2 : ℚ) ≤ (l.length : ℚ) := by exact_mod_cast h2
      linarith

theorem is_stat_anomaly_iff_real (v a vr : ℚ) (h : 0 ≤ vr) :
    (is_stat_anomaly v a vr = true ↔
      ((v : ℝ) < (a : ℝ) - 9 / 5 * Real.sqrt (vr : ℝ) ∧ 0 < Real.sqrt (vr : ℝ))) := by
  have hvr : (0 : ℝ) ≤ (vr : ℝ) := by exact_mod_cast h
  have hs2 : Real.sqrt (vr : ℝ) ^ 2 = (vr : ℝ) := Real.sq_sqrt hvr
  have hspos : 0 < Real.sqrt (vr : ℝ) ↔ 0 < vr := by
    rw [Real.sqrt_pos]
    exact ⟨fun hh => by exact_mod_cast hh, fun hh => by exact_mod_cast hh⟩
  simp only [is_stat_anomaly, Bool.and_eq_true, decide_eq_true_eq]
  constructor
  · rintro ⟨⟨hd, hsq⟩, hv⟩
    refine ⟨?_, hspos.mpr hv⟩
    have hdR : (0 : ℝ) < (a : ℝ) - (v : ℝ) := by
      exact_mod_cast hd
    have hsqR : ((((9 : ℚ) / 5) ^ 2 * vr : ℚ) : ℝ) < (((a - v) ^ 2 : ℚ) : ℝ) :=
      Rat.cast_lt.mpr hsq
    push_cast at hsqR
    have hlt : ((9 : ℝ) / 5 * Real.sqrt (vr : ℝ)) ^ 2 < ((a : ℝ) - (v : ℝ)) ^ 2 := by
      rw [mul_pow, hs2]
      linarith
    have hfin : (9 : ℝ) / 5 * Real.sqrt (vr : ℝ) < (a : ℝ) - (v : ℝ) :=
      lt_of_pow_lt_pow_left₀ 2 (le_of_lt hdR) hlt
    linarith
  · rintro ⟨hlt, hsp⟩
    have hv : 0 < vr := hspos.mp hsp
    have hmul : (0 : ℝ) < (9 : ℝ) / 5 * Real.sqrt (vr : ℝ) := by positivity
    have hdR : (0 : ℝ) < (a : ℝ) - (v : ℝ) := by linarith
    have hsqR : ((9 : ℝ) / 5 * Real.sqrt (vr : ℝ)) ^ 2 < ((a : ℝ) - (v : ℝ)) ^ 2 := by
      apply pow_lt_pow_left₀ (by linarith) (le_of_lt hmul)
      omega
    rw [mul_pow, hs2] at hsqR
    have hd0 : ((0 : ℚ) : ℝ) < ((a - v : ℚ) : ℝ) := by push_cast; linarith
    have hsq0 : ((((9 : ℚ) / 5) ^ 2 * vr : ℚ) : ℝ) < (((a - v) ^ 2 : ℚ) : ℝ) := by
      push_cast
      linarith
    exact ⟨⟨Rat.cast_lt.mp hd0, Rat.cast_lt.mp hsq0⟩, hv⟩

/-! ## Claim theorems -/

/-- C1 counterexample: in generate_sales_dip_anomalies the baselines are
computed over ALL fetched rows (main.py line 71) before the recent-window
filter (line 77), so a recent row does contribute to the baseline used to
classify it.  With one historical row (sales 100) and one recent row (sales 0)
in the same (store, cohort) group, the recent row is classified against a
baseline mean of 50 — the mean over both rows — while the mean of the
historical window alone is 100. -/
theorem C1_recent_in_baseline_counterexample :
    (generate_sales_dip_anomalies
        [⟨"S", "Mon-AM", -1000000, 100⟩, ⟨"S", "Mon-AM", -100, 0⟩] 0).map
      AnalysisRow.avg_sales = [50] ∧
    meanOf ((historicalRows
        [⟨"S", "Mon-AM", -1000000, 100⟩, ⟨"S", "Mon-AM", -100, 0⟩] 0).map
      ShiftRow.total_sales) = 100 ∧
    (50 : ℚ) ≠ 100 := by
  refine ⟨?_, ?_, by norm_num⟩
  · have hkeys : groupKeys [(⟨"S", "Mon-AM", -1000000, 100⟩ : ShiftRow),
        ⟨"S", "Mon-AM", -100, 0⟩] = [("S", "Mon-AM")] := by decide
    have hvals : valsFor [(⟨"S", "Mon-AM", -1000000, 100⟩ : ShiftRow),
        ⟨"S", "Mon-AM", -100, 0⟩] ("S", "Mon-AM") = [100, 0] := by decide
    have hmean : meanOf [100, 0] = (50 : ℚ) := by norm_num [meanOf]
    have hvar : sampleVar [100, 0] = 5000 := by norm_num [sampleVar, meanOf]
    have hbs : baselines [(⟨"S", "Mon-AM", -1000000, 100⟩ : ShiftRow),
        ⟨"S", "Mon-AM", -100, 0⟩] = [(("S", "Mon-AM"), ⟨50, 5000⟩)] := by
      rw [baselines, hkeys]
      simp [hvals, hmean, hvar]
    simp only [generate_sales_dip_anomalies, hbs, lookupBaseline, List.map, List.find?,
      analysisPeriodStart, ANALYSIS_DAYS]
    norm_num [hvals, hmean, hvar, sortLE, insertLE, List.filter, is_suspicious,
      is_stat_anomaly, is_hard_rule_anomaly]
  · have hhist : historicalRows [(⟨"S", "Mon-AM", -1000000, 100⟩ : ShiftRow),
        ⟨"S", "Mon-AM", -100, 0⟩] 0 = [⟨"S", "Mon-AM", -1000000, 100⟩] := by decide
    rw [hhist]
    norm_num [meanOf]

/-- C1 (amended): the split point now - analysis_days determines which rows are
classified — every output row of generate_sales_dip_anomalies lies in the
recent analysis window — but the baseline mean and variance attached to an
output row are those of its (store, cohort) group over ALL input rows,
the recent analysis window included, not over the historical window alone. -/
theorem C1_split_classifies_recent_but_baselines_use_all (rows : List ShiftRow) (now : Int)
    (a : AnalysisRow) (ha : a ∈ generate_sales_dip_anomalies rows now) :
    analysisPeriodStart now ≤ a.row.shift_opening_time ∧
      a.avg_sales = meanOf (valsFor rows (a.row.store_name, a.row.shift_slot)) ∧
      a.var_sales = sampleVar (valsFor rows (a.row.store_name, a.row.shift_slot)) := by
  simp only [generate_sales_dip_anomalies, mem_sortLE, List.mem_filter, List.mem_map] at ha
  obtain ⟨⟨p, hp, heq⟩, _⟩ := ha
  obtain ⟨⟨r, hr, hpr⟩, hp2⟩ := hp
  subst hpr
  subst heq
  simp only [decide_eq_true_eq] at hp2
  refine ⟨hp2, ?_, ?_⟩
  · rw [lookupBaseline_eq rows _ (mem_groupKeys rows r hr)]
  · rw [lookupBaseline_eq rows _ (mem_groupKeys rows r hr)]

theorem C1_split_witness :
    analysisPeriodStart 0 ≤
        (⟨"S", "Mon-AM", -100, 0⟩ : ShiftRow).shift_opening_time ∧
      meanOf (valsFor [⟨"S", "Mon-AM", -1000000, 100⟩, ⟨"S", "Mon-AM", -100, 0⟩]
          ("S", "Mon-AM")) =
        meanOf (valsFor [⟨"S", "Mon-AM", -1000000, 100⟩, ⟨"S", "Mon-AM", -100, 0⟩]
          ("S", "Mon-AM")) := by
  have hkeys : groupKeys [(⟨"S", "Mon-AM", -1000000, 100⟩ : ShiftRow),
      ⟨"S", "Mon-AM", -100, 0⟩] = [("S", "Mon-AM")] := by decide
  have hvals : valsFor [(⟨"S", "Mon-AM", -1000000, 100⟩ : ShiftRow),
      ⟨"S", "Mon-AM", -100, 0⟩] ("S", "Mon-AM") = [100, 0] := by decide
  have hmean : meanOf [100, 0] = (50 : ℚ) := by norm_num [meanOf]
  have hvar : sampleVar [100, 0] = 5000 := by norm_num [sampleVar, meanOf]
  have hbs : baselines [(⟨"S", "Mon-AM", -1000000, 100⟩ : ShiftRow),
      ⟨"S", "Mon-AM", -100, 0⟩] = [(("S", "Mon-AM"), ⟨50, 5000⟩)] := by
    rw [baselines, hkeys]
    simp [hvals, hmean, hvar]
  have hmem : (⟨⟨"S", "Mon-AM", -100, 0⟩, 50, 5000, false, true, true⟩ : AnalysisRow) ∈
      generate_sales_dip_anomalies
        [⟨"S", "Mon-AM", -1000000, 100⟩, ⟨"S", "Mon-AM", -100, 0⟩] 0 := by
    simp only [generate_sales_dip_anomalies, hbs, lookupBaseline, List.map, List.find?,
      analysisPeriodStart, ANALYSIS_DAYS]
    norm_num [hvals, hmean, hvar, sortLE, insertLE, List.filter, is_suspicious,
      is_stat_anomaly, is_hard_rule_anomaly]
  have h := C1_split_classifies_recent_but_baselines_use_all
    [⟨"S", "Mon-AM", -1000000, 100⟩, ⟨"S", "Mon-AM", -100, 0⟩] 0
    ⟨⟨"S", "Mon-AM", -100, 0⟩, 50, 5000, false, true, true⟩ hmem
  exact ⟨h.1, rfl⟩

/-- C2: find_runs marks in_alert_run exactly for the members of maximal
consecutive runs of true flags whose length is at least min_run_length — a
position is marked iff it belongs to a maximal run (j..k) of true flags with
k + 1 - j ≥ m — and on the flags [F,F,T,T,T,F,T,T] with min_run_length = 3 the
marks are exactly at indices 2, 3 and 4, not at 6 and 7.  (The run detector is
modelled from the spec: src/ has no run-detection code.) -/
theorem C2_run_detection :
    (∀ (flags : List Bool) (m i : Nat), i < flags.length →
      ((find_runs m flags).getD i false = true ↔
        ∃ j k, IsMaxRun flags j k ∧ m ≤ k + 1 - j ∧ j ≤ i ∧ i ≤ k)) ∧
    find_runs 3 [false, false, true, true, true, false, true, true] =
      [false, false, true, true, true, false, false, false] :=
  ⟨fun flags m i hi => find_runs_spec m flags i hi,
    by simp [find_runs_cons, find_runs_nil, leadRun]⟩

theorem C2_run_detection_witness :
    (find_runs 3 [false, false, true, true, true, false, true, true]).getD 2 false = true :=
  (C2_run_detection.1 [false, false, true, true, true, false, true, true] 3 2
      (by decide)).mpr
    ⟨2, 4, by decide, by decide, by decide, by decide⟩

/-- C3: the statistical flag of the classifier holds iff the metric value is
strictly below mean - 1.8 * std_dev with std_dev = sqrt of the carried
variance positive; for a cohort with mean 100 and std_dev 10 (variance 100),
the boundary is 82: value 81.99 is flagged, value 82.01 is not. -/
theorem C3_statistical_rule :
    (∀ v a vr : ℚ, 0 ≤ vr →
      (is_stat_anomaly v a vr = true ↔
        ((v : ℝ) < (a : ℝ) - 9 / 5 * Real.sqrt (vr : ℝ) ∧ 0 < Real.sqrt (vr : ℝ)))) ∧
    is_stat_anomaly (8199 / 100) 100 100 = true ∧
    is_stat_anomaly (8201 / 100) 100 100 = false :=
  ⟨fun v a vr h => is_stat_anomaly_iff_real v a vr h,
    by norm_num [is_stat_anomaly],
    by norm_num [is_stat_anomaly]⟩

theorem C3_statistical_rule_witness :
    ((8199 / 100 : ℚ) : ℝ) < ((100 : ℚ) : ℝ) - 9 / 5 * Real.sqrt ((100 : ℚ) : ℝ) ∧
      0 < Real.sqrt ((100 : ℚ) : ℝ) :=
  (C3_statistical_rule.1 (8199 / 100) 100 100 (by norm_num)).mp
    (by norm_num [is_stat_anomaly])

/-- C4: the hard-rule flag holds iff the metric value is strictly below
mean * 0.6, taking no variance input at all; the overall is_suspicious verdict
is the OR of the statistical and hard-rule flags; for mean 100, value 59.99 is
flagged and 60.01 is not, and 59.99 stays suspicious whatever the variance. -/
theorem C4_hard_rule :
    (∀ v a : ℚ, is_hard_rule_anomaly v a = true ↔ v < a * (3 / 5)) ∧
    (∀ v a vr : ℚ, is_suspicious v a vr = true ↔
      (is_stat_anomaly v a vr = true ∨ is_hard_rule_anomaly v a = true)) ∧
    is_hard_rule_anomaly (5999 / 100) 100 = true ∧
    is_hard_rule_anomaly (6001 / 100) 100 = false ∧
    (∀ vr : ℚ, is_suspicious (5999 / 100) 100 vr = true) := by
  refine ⟨?_, ?_, by norm_num [is_hard_rule_anomaly], by norm_num [is_hard_rule_anomaly], ?_⟩
  · intro v a
    simp [is_hard_rule_anomaly]
  · intro v a vr
    simp [is_suspicious]
  · intro vr
    have hh : is_hard_rule_anomaly (5999 / 100) 100 = true := by
      norm_num [is_hard_rule_anomaly]
    simp [is_suspicious, hh]

/-- C6: the baseline estimator computes the arithmetic mean, and its spread
measure is the sample standard deviation with n-1 denominator — the carried
variance is nonnegative and its square root squares back to it, and for a
group with 0 or 1 members both the variance and the standard deviation are
exactly 0, never undefined; every entry of the baselines frame holds exactly
the mean and variance of its (store, cohort) group. -/
theorem C6_baseline_estimator :
    (∀ l : List ℚ, meanOf l = l.sum / l.length) ∧
    (∀ l : List ℚ, l.length ≤ 1 →
      sampleVar l = 0 ∧ Real.sqrt ((sampleVar l : ℚ) : ℝ) = 0) ∧
    (∀ l : List ℚ, 2 ≤ l.length →
      0 ≤ sampleVar l ∧
      Real.sqrt ((sampleVar l : ℚ) : ℝ) ^ 2 = ((sampleVar l : ℚ) : ℝ) ∧
      sampleVar l = (l.map (fun x => (x - meanOf l) ^ 2)).sum / ((l.length : ℚ) - 1)) ∧
    (∀ rows k b, (k, b) ∈ baselines rows →
      b.avg = meanOf (valsFor rows k) ∧ b.var = sampleVar (valsFor rows k)) := by
  refine ⟨fun l => rfl, ?_, ?_, ?_⟩
  · intro l h
    have h0 : sampleVar l = 0 := by
      unfold sampleVar
      rw [if_pos h]
    refine ⟨h0, ?_⟩
    rw [h0]
    simp
  · intro l h
    refine ⟨sampleVar_nonneg l, Real.sq_sqrt (by exact_mod_cast sampleVar_nonneg l), ?_⟩
    unfold sampleVar
    rw [if_neg (by omega)]
  · intro rows k b hmem
    simp only [baselines, List.mem_map] at hmem
    obtain ⟨k', _, heq⟩ := hmem
    obtain ⟨h1, h2⟩ := Prod.mk.injEq .. |>.mp heq
    subst h1
    rw [← h2]
    exact ⟨rfl, rfl⟩

theorem C6_baseline_estimator_witness :
    (sampleVar [(5 : ℚ)] = 0 ∧ Real.sqrt ((sampleVar [(5 : ℚ)] : ℚ) : ℝ) = 0) ∧
    (0 ≤ sampleVar [(100 : ℚ), 110] ∧
      Real.sqrt ((sampleVar [(100 : ℚ), 110] : ℚ) : ℝ) ^ 2 =
        ((sampleVar [(100 : ℚ), 110] : ℚ) : ℝ) ∧
      sampleVar [(100 : ℚ), 110] =
        (([(100 : ℚ), 110]).map (fun x => (x - meanOf [(100 : ℚ), 110]) ^ 2)).sum /
          ((([(100 : ℚ), 110]).length : ℚ) - 1)) ∧
    ((⟨meanOf (valsFor [⟨"S", "Mon-AM", 0, 100⟩] ("S", "Mon-AM")),
        sampleVar (valsFor [⟨"S", "Mon-AM", 0, 100⟩] ("S", "Mon-AM"))⟩ : Baseline).avg =
      meanOf (valsFor [⟨"S", "Mon-AM", 0, 100⟩] ("S", "Mon-AM")) ∧
      (⟨meanOf (valsFor [⟨"S", "Mon-AM", 0, 100⟩] ("S", "Mon-AM")),
        sampleVar (valsFor [⟨"S", "Mon-AM", 0, 100⟩] ("S", "Mon-AM"))⟩ : Baseline).var =
      sampleVar (valsFor [⟨"S", "Mon-AM", 0, 100⟩] ("S", "Mon-AM"))) :=
  ⟨C6_baseline_estimator.2.1 [(5 : ℚ)] (by decide),
    C6_baseline_estimator.2.2.1 [(100 : ℚ), 110] (by decide),
    C6_baseline_estimator.2.2.2 [⟨"S", "Mon-AM", 0, 100⟩] ("S", "Mon-AM") _
      (List.mem_map_of_mem _ (by decide))⟩

/-- C7: in the ratio analyzer, a shift with Spanish Latte count 0 and a
positive Americano count gets the exact sentinel ratio 9.99 — not infinity,
not an error, the embedding is a total function — and the high-ratio flag
holds exactly when the (defined) ratio exceeds the threshold 0.6, so
Americano 5, Spanish Latte 0 is flagged. -/
theorem C7_ratio_sentinel :
    (∀ am sl : ℚ, sl = 0 → 0 < am →
      americano_vs_spanish_latte_pct am sl = some (999 / 100) ∧
        is_ratio_anomaly am sl = true) ∧
    (∀ am sl p : ℚ, americano_vs_spanish_latte_pct am sl = some p →
      (is_ratio_anomaly am sl = true ↔ (3 : ℚ) / 5 < p)) ∧
    americano_vs_spanish_latte_pct 5 0 = some (999 / 100) ∧
    is_ratio_anomaly 5 0 = true := by
  have hsome : ∀ am sl : ℚ, sl = 0 → 0 < am →
      americano_vs_spanish_latte_pct am sl = some (999 / 100) := by
    intro am sl h0 hpos
    subst h0
    unfold americano_vs_spanish_latte_pct
    rw [if_neg (by norm_num), if_pos ⟨rfl, hpos⟩]
  have hiff : ∀ am sl p : ℚ, americano_vs_spanish_latte_pct am sl = some p →
      (is_ratio_anomaly am sl = true ↔ (3 : ℚ) / 5 < p) := by
    intro am sl p h
    unfold is_ratio_anomaly
    rw [h]
    simp
  refine ⟨fun am sl h0 hpos => ⟨hsome am sl h0 hpos, ?_⟩, hiff,
    hsome 5 0 rfl (by norm_num), ?_⟩
  · rw [hiff am sl (999 / 100) (hsome am sl h0 hpos)]
    norm_num
  · rw [hiff 5 0 (999 / 100) (hsome 5 0 rfl (by norm_num))]
    norm_num

theorem C7_ratio_sentinel_witness :
    americano_vs_spanish_latte_pct 5 0 = some (999 / 100) ∧
      is_ratio_anomaly 5 0 = true :=
  C7_ratio_sentinel.1 5 0 rfl (by norm_num)

/-- C8: the engine is a pure function of its inputs — the row set and the
caller-supplied now used to split the windows (the embedding of the clock read
on main.py lines 76 and 137) — so two runs on equal inputs produce equal
outputs, for the sales-dip pipeline, the ratio pipeline and the baselines. -/
theorem C8_deterministic (rows rows2 : List ShiftRow) (rrows rrows2 : List RatioRow)
    (now now2 : Int) (hrows : rows = rows2) (hrrows : rrows = rrows2) (hnow : now = now2) :
    generate_sales_dip_anomalies rows now = generate_sales_dip_anomalies rows2 now2 ∧
      generate_ratio_anomalies rrows now = generate_ratio_anomalies rrows2 now2 ∧
      baselines rows = baselines rows2 ∧
      runEngine rows now = runEngine rows2 now2 := by
  subst hrows
  subst hrrows
  subst hnow
  exact ⟨rfl, rfl, rfl, rfl⟩

theorem C8_deterministic_witness :
    generate_sales_dip_anomalies [] 0 = generate_sales_dip_anomalies [] 0 ∧
      generate_ratio_anomalies [] 0 = generate_ratio_anomalies [] 0 ∧
      baselines [] = baselines [] ∧
      runEngine [] 0 = runEngine [] 0 :=
  C8_deterministic [] [] [] [] 0 0 rfl rfl rfl

/-- C10: a shift that sold neither product keeps an undefined ratio — the 9.99
sentinel applies only when the Americano count is positive — and the
high-ratio condition does not flag it. -/
theorem C10_neither_product_not_flagged (am sl : ℚ) (ha : am = 0) (hs : sl = 0) :
    americano_vs_spanish_latte_pct am sl = none ∧ is_ratio_anomaly am sl = false := by
  subst ha
  subst hs
  constructor
  · unfold americano_vs_spanish_latte_pct
    rw [if_neg (by norm_num), if_neg (by norm_num)]
  · unfold is_ratio_anomaly americano_vs_spanish_latte_pct
    rw [if_neg (by norm_num), if_neg (by norm_num)]

theorem C10_neither_product_not_flagged_witness :
    americano_vs_spanish_latte_pct 0 0 = none ∧ is_ratio_anomaly 0 0 = false :=
  C10_neither_product_not_flagged 0 0 rfl rfl

/-- C9 counterexample: the engine performs no contract validation — on an
input row with negative total_sales it does not raise, it silently classifies
the row like any other and here emits a verdict for it (the row is flagged by
the hard rule against its own one-row baseline). -/
theorem C9_no_raise_counterexample :
    runEngine [⟨"S", "Mon-AM", -1, -5⟩] 0 =
      Except.ok [⟨⟨"S", "Mon-AM", -1, -5⟩, -5, 0, false, true, true⟩] := by
  have hkeys : groupKeys [(⟨"S", "Mon-AM", -1, -5⟩ : ShiftRow)] = [("S", "Mon-AM")] := by
    decide
  have hvals : valsFor [(⟨"S", "Mon-AM", -1, -5⟩ : ShiftRow)] ("S", "Mon-AM") = [-5] := by
    decide
  have hmean : meanOf [(-5 : ℚ)] = -5 := by norm_num [meanOf]
  have hvar : sampleVar [(-5 : ℚ)] = 0 := by norm_num [sampleVar]
  have hbs : baselines [(⟨"S", "Mon-AM", -1, -5⟩ : ShiftRow)] =
      [(("S", "Mon-AM"), ⟨-5, 0⟩)] := by
    rw [baselines, hkeys]
    simp [hvals, hmean, hvar]
  simp only [runEngine, generate_sales_dip_anomalies, hbs, lookupBaseline, List.map,
    List.find?, analysisPeriodStart, ANALYSIS_DAYS]
  norm_num [hvals, hmean, hvar, sortLE, insertLE, List.filter, is_suspicious,
    is_stat_anomaly, is_hard_rule_anomaly]

/-- C9 (amended): the engine never raises on any input, well-formed or not —
rows with negative total_sales go through the same classification rules as any
other row, and can even pass unflagged in silence, as the second conjunct
shows on a contract-violating input that produces an empty anomaly report. -/
theorem C9_never_raises :
    (∀ (rows : List ShiftRow) (now : Int), (runEngine rows now).isOk = true) ∧
    runEngine [⟨"S", "Mon-AM", -1, -1⟩, ⟨"S", "Mon-AM", -700000, -19⟩] 0 =
      Except.ok [] := by
  refine ⟨fun rows now => rfl, ?_⟩
  have hkeys : groupKeys [(⟨"S", "Mon-AM", -1, -1⟩ : ShiftRow),
      ⟨"S", "Mon-AM", -700000, -19⟩] = [("S", "Mon-AM")] := by decide
  have hvals : valsFor [(⟨"S", "Mon-AM", -1, -1⟩ : ShiftRow),
      ⟨"S", "Mon-AM", -700000, -19⟩] ("S", "Mon-AM") = [-1, -19] := by decide
  have hmean : meanOf [(-1 : ℚ), -19] = -10 := by norm_num [meanOf]
  have hvar : sampleVar [(-1 : ℚ), -19] = 162 := by norm_num [sampleVar, meanOf]
  have hbs : baselines [(⟨"S", "Mon-AM", -1, -1⟩ : ShiftRow),
      ⟨"S", "Mon-AM", -700000, -19⟩] = [(("S", "Mon-AM"), ⟨-10, 162⟩)] := by
    rw [baselines, hkeys]
    simp [hvals, hmean, hvar]
  simp only [runEngine, generate_sales_dip_anomalies, hbs, lookupBaseline, List.map,
    List.find?, analysisPeriodStart, ANALYSIS_DAYS]
  norm_num [hvals, hmean, hvar, sortLE, insertLE, List.filter, is_suspicious,
    is_stat_anomaly, is_hard_rule_anomaly]

/-- C5: for every valid timestamp (day-of-week 1..7, hour 0..23), the cohort
classifier yields AM exactly on hours 4..11 and PM exactly on hours 16..23 —
landing the shift_slot in the fourteen {Mon..Sun}-{AM,PM} keys — and every
other hour (0..3 and 12..15) yields the "Other" bucket; every row reaching the
downstream analyses comes from a row whose bucket is not "Other". -/
theorem C5_cohort_classification :
    (∀ d hod : Nat, 1 ≤ d → d ≤ 7 → hod ≤ 23 →
      ((4 ≤ hod ∧ hod ≤ 11) →
        categorize_shift hod = "AM" ∧ raw_shift_slot d hod ∈ cohortKeys) ∧
      ((16 ≤ hod ∧ hod ≤ 23) →
        categorize_shift hod = "PM" ∧ raw_shift_slot d hod ∈ cohortKeys) ∧
      ((hod ≤ 3 ∨ (12 ≤ hod ∧ hod ≤ 15)) → categorize_shift hod = "Other")) ∧
    cohortKeys.length = 14 ∧ cohortKeys.Nodup ∧
    (∀ rows s, s ∈ get_processed_shift_data rows →
      ∃ r, r ∈ rows ∧ categorize_shift r.hour_of_day ≠ "Other" ∧ s = toShiftRow r) := by
  refine ⟨?_, by decide, by decide, ?_⟩
  · intro d hod h1 h7 h23
    refine ⟨?_, ?_, ?_⟩
    · rintro ⟨ha, hb⟩
      have hc : categorize_shift hod = "AM" := by
        unfold categorize_shift
        rw [if_pos ⟨ha, hb⟩]
      refine ⟨hc, ?_⟩
      unfold raw_shift_slot
      rw [hc]
      interval_cases d <;> decide
    · rintro ⟨ha, hb⟩
      have hc : categorize_shift hod = "PM" := by
        unfold categorize_shift
        rw [if_neg (by omega), if_pos ⟨ha, hb⟩]
      refine ⟨hc, ?_⟩
      unfold raw_shift_slot
      rw [hc]
      interval_cases d <;> decide
    · intro hother
      unfold categorize_shift
      rw [if_neg (by omega), if_neg (by omega)]
  · intro rows s hs
    simp only [get_processed_shift_data, List.mem_map, List.mem_filter,
      decide_eq_true_eq] at hs
    obtain ⟨r, ⟨hr, hno⟩, heq⟩ := hs
    exact ⟨r, hr, hno, heq.symm⟩

theorem C5_cohort_classification_witness :
    (categorize_shift 9 = "AM" ∧ raw_shift_slot 2 9 ∈ cohortKeys) ∧
    (categorize_shift 20 = "PM" ∧ raw_shift_slot 7 20 ∈ cohortKeys) ∧
    categorize_shift 13 = "Other" ∧
    (∃ r, r ∈ [(⟨"S", 2, 9, 0, 5⟩ : RawShiftRow)] ∧
      categorize_shift r.hour_of_day ≠ "Other" ∧
      toShiftRow (⟨"S", 2, 9, 0, 5⟩ : RawShiftRow) = toShiftRow r) :=
  ⟨(C5_cohort_classification.1 2 9 (by decide) (by decide) (by decide)).1
      ⟨by decide, by decide⟩,
    (C5_cohort_classification.1 7 20 (by decide) (by decide) (by decide)).2.1
      ⟨by decide, by decide⟩,
    (C5_cohort_classification.1 1 13 (by decide) (by decide) (by decide)).2.2
      (Or.inr ⟨by decide, by decide⟩),
    C5_cohort_classification.2.2.2 [(⟨"S", 2, 9, 0, 5⟩ : RawShiftRow)]
      (toShiftRow (⟨"S", 2, 9, 0, 5⟩ : RawShiftRow)) (by decide)⟩
